import Mathlib

set_option maxHeartbeats 1000000

/-!
Shallow embedding of the textlint-web-checker core: the mock rule engine
(`generateMockLintResult` in `client/src/hooks/useTextlint.ts`, the variant that
reports all occurrences per rule), the error-context extractor
(`getErrorContext`), the diagnostic filter (`filteredMessages`), and a
discrete-event model of the debounced lint effect.

Strings are modelled as `List Char` (the source only ever handles characters of
the Basic Multilingual Plane, where JavaScript UTF-16 indices coincide with
character indices).  The regex scans of the source are modelled as explicit
left-to-right scans; each scan consumes at least one character per step, so a
fuel parameter equal to the input length makes them structurally recursive and
kernel-evaluable.
-/

namespace TextlintChecker

/-- Characters matched by the JavaScript regex class backslash-s (also the set
removed by `String.prototype.trim`). -/
def jsWhitespaceChar (c : Char) : Bool :=
  c == ' ' || c == '\t' || c == '\n' || c == '\r' ||
  c.toNat == 0x0b || c.toNat == 0x0c || c.toNat == 0xa0 || c.toNat == 0x1680 ||
  (0x2000 ≤ c.toNat && c.toNat ≤ 0x200a) ||
  c.toNat == 0x2028 || c.toNat == 0x2029 || c.toNat == 0x202f || c.toNat == 0x205f ||
  c.toNat == 0x3000 || c.toNat == 0xfeff

/-- JavaScript `String.prototype.split` on a single-character class: splitting
the empty string yields `[[]]`, and every delimiter occurrence produces a cut
(so trailing delimiters produce a trailing empty segment). -/
def jsSplit (p : Char → Bool) : List Char → List (List Char)
  | [] => [[]]
  | c :: rest =>
    if p c then [] :: jsSplit p rest
    else
      match jsSplit p rest with
      | [] => [[c]]
      | s :: ss => (c :: s) :: ss

/-- Fuelled scan for all non-overlapping occurrences of a literal pattern,
left to right, continuing after the end of each match: the semantics of a
repeated `RegExp.exec` with a global literal pattern. -/
def findOccurrencesF (pat : List Char) : Nat → List Char → Nat → List Nat
  | 0, _, _ => []
  | fuel + 1, l, i =>
    match l with
    | [] => []
    | c :: rest =>
      if !pat.isEmpty && pat.isPrefixOf (c :: rest) then
        i :: findOccurrencesF pat fuel ((c :: rest).drop pat.length) (i + pat.length)
      else
        findOccurrencesF pat fuel rest (i + 1)

def findOccurrences (pat l : List Char) (i : Nat) : List Nat :=
  findOccurrencesF pat l.length l i

/-- Fuelled scan for the maximal runs of characters of a class: the semantics
of a repeated `exec` of a global `[class]+` pattern.  Returns the start index
and length of each run. -/
def runScanF (cls : Char → Bool) : Nat → List Char → Nat → List (Nat × Nat)
  | 0, _, _ => []
  | fuel + 1, l, i =>
    match l with
    | [] => []
    | c :: rest =>
      if cls c then
        let len := 1 + (rest.takeWhile cls).length
        (i, len) :: runScanF cls fuel ((c :: rest).drop len) (i + len)
      else
        runScanF cls fuel rest (i + 1)

def runScan (cls : Char → Bool) (l : List Char) : List (Nat × Nat) :=
  runScanF cls l.length l 0

/-- Matcher for `([class]{min,})\1` at the head of `l`: the greedy capture is
the longest length `len` (at most the class run at the head) such that the
captured block is immediately repeated.  Returns the capture length. -/
def doubledRunMatchLen (cls : Char → Bool) (minLen : Nat) (l : List Char) : Option Nat :=
  ((List.range ((l.takeWhile cls).length + 1)).reverse).find?
    (fun len => decide (minLen ≤ len) && (l.take len == (l.drop len).take len))

/-- Fuelled global scan for `([class]{min,})\1`: at each position, on a match
(of capture length `len`) emit the start index and the captured block and
resume after the full match (`2 * len` characters); otherwise advance one
character. -/
def doubledRunScanF (cls : Char → Bool) (minLen : Nat) : Nat → List Char → Nat → List (Nat × List Char)
  | 0, _, _ => []
  | fuel + 1, l, i =>
    match l with
    | [] => []
    | c :: rest =>
      match doubledRunMatchLen cls minLen (c :: rest) with
      | some len =>
        (i, (c :: rest).take len) :: doubledRunScanF cls minLen fuel ((c :: rest).drop (2 * len)) (i + 2 * len)
      | none => doubledRunScanF cls minLen fuel rest (i + 1)

def doubledRunScan (cls : Char → Bool) (minLen : Nat) (l : List Char) : List (Nat × List Char) :=
  doubledRunScanF cls minLen l.length l 0

/-- The four particles of the doubled-particle rule. -/
def joshiChar (c : Char) : Bool := c == 'は' || c == 'が' || c == 'を' || c == 'に'

/-- Matcher for `([はがをに])[^はがをに]{0,10}\1` at the head of `l`.  Since the
infix class excludes every particle, the back reference can only land on the
first particle character following the head, so the match succeeds exactly when
that character exists within 10 intervening non-particle characters and equals
the head particle.  Returns the match length and the particle. -/
def doubledJoshiMatchLen (l : List Char) : Option (Nat × Char) :=
  match l with
  | [] => none
  | c :: rest =>
    if joshiChar c then
      let mid := rest.takeWhile (fun x => !joshiChar x)
      if mid.length ≤ 10 then
        match rest.drop mid.length with
        | d :: _ => if d == c then some (mid.length + 2, c) else none
        | [] => none
      else none
    else none

def doubledJoshiScanF : Nat → List Char → Nat → List (Nat × Char)
  | 0, _, _ => []
  | fuel + 1, l, i =>
    match l with
    | [] => []
    | c :: rest =>
      match doubledJoshiMatchLen (c :: rest) with
      | some p => (i, p.2) :: doubledJoshiScanF fuel ((c :: rest).drop p.1) (i + p.1)
      | none => doubledJoshiScanF fuel rest (i + 1)

def doubledJoshiScan (l : List Char) : List (Nat × Char) :=
  doubledJoshiScanF l.length l 0

def latinChar (c : Char) : Bool := ('a' ≤ c && c ≤ 'z') || ('A' ≤ c && c ≤ 'Z')

/-- JavaScript regex word characters (the class backslash-w), used by the word
boundary assertion. -/
def wordChar (c : Char) : Bool := latinChar c || ('0' ≤ c && c ≤ '9') || c == '_'

/-- Matcher for the word-boundary pattern `\b([a-zA-Z]{2,})\s+\1\b` at the head
of `l`, where `prevWord` records whether the character before `l` is a word
character.  The capture must be the entire letter run at the head (a shorter
greedy capture would put a letter where the whitespace must start), the
whitespace run is maximal (the back reference starts with a letter), and the
trailing boundary requires a non-word character (or the end) after the repeat.
Returns the full match length and the captured word. -/
def trySpaceSepAt (l : List Char) (prevWord : Bool) : Option (Nat × List Char) :=
  if prevWord then none
  else
    let run := l.takeWhile latinChar
    if run.length < 2 then none
    else
      let rest1 := l.drop run.length
      let ws := rest1.takeWhile jsWhitespaceChar
      if ws.length == 0 then none
      else
        let rest2 := rest1.drop ws.length
        if run.isPrefixOf rest2 then
          match rest2.drop run.length with
          | [] => some (run.length + ws.length + run.length, run)
          | d :: _ => if wordChar d then none else some (run.length + ws.length + run.length, run)
        else none

def spaceSepScanF : Nat → List Char → Nat → Bool → List (Nat × List Char)
  | 0, _, _, _ => []
  | fuel + 1, l, i, prevWord =>
    match l with
    | [] => []
    | c :: rest =>
      match trySpaceSepAt (c :: rest) prevWord with
      | some p => (i, p.2) :: spaceSepScanF fuel ((c :: rest).drop p.1) (i + p.1) true
      | none => spaceSepScanF fuel rest (i + 1) (wordChar c)

def spaceSepScan (l : List Char) : List (Nat × List Char) :=
  spaceSepScanF l.length l 0 false

/-- Matcher for `\*\*[^*]+\*\*:` at the head of `l`: two asterisks, a nonempty
maximal run of non-asterisk characters (a shorter greedy choice would put a
non-asterisk where an asterisk is required), then `**:`. -/
def tryEmphasisAt (l : List Char) : Option Nat :=
  match l with
  | '*' :: '*' :: rest =>
    let mid := rest.takeWhile (fun c => !(c == '*'))
    if mid.length == 0 then none
    else
      match rest.drop mid.length with
      | '*' :: '*' :: ':' :: _ => some (mid.length + 5)
      | _ => none
  | _ => none

def emphasisScanF : Nat → List Char → Nat → List Nat
  | 0, _, _ => []
  | fuel + 1, l, i =>
    match l with
    | [] => []
    | c :: rest =>
      match tryEmphasisAt (c :: rest) with
      | some len => i :: emphasisScanF fuel ((c :: rest).drop len) (i + len)
      | none => emphasisScanF fuel rest (i + 1)

def emphasisScan (l : List Char) : List Nat :=
  emphasisScanF l.length l 0

/-- Index of the first occurrence of a character, if any. -/
def firstIdxGo (c : Char) : List Char → Nat → Option Nat
  | [], _ => none
  | x :: rest, i => if x == c then some i else firstIdxGo c rest (i + 1)

def firstIdx (l : List Char) (c : Char) : Option Nat := firstIdxGo c l 0

/-- JavaScript `String.prototype.indexOf` for a single character: the first
occurrence index, or `-1` when absent. -/
def jsIndexOf (l : List Char) (c : Char) : Int :=
  match firstIdx l c with
  | some i => (i : Int)
  | none => -1

/-- Wire shape of one diagnostic. -/
structure TextlintMessage where
  type : String
  ruleId : String
  message : String
  line : Nat
  column : Nat
  severity : Nat
deriving Repr, DecidableEq

/-- Wire shape of a lint result. -/
structure LintResult where
  messages : List TextlintMessage
  errorCount : Nat
  warningCount : Nat
deriving Repr, DecidableEq

def kanjiClass (c : Char) : Bool := 0x4e00 ≤ c.toNat && c.toNat ≤ 0x9faf

def jpClass (c : Char) : Bool :=
  (0x3040 ≤ c.toNat && c.toNat ≤ 0x309f) || (0x30a0 ≤ c.toNat && c.toNat ≤ 0x30ff) || kanjiClass c

def exclClass (c : Char) : Bool := c == '！' || c == '!' || c == '？' || c == '?'

def sentenceDelim (c : Char) : Bool := c == '。' || c == '．'

/-- Rule 1: exclamation/question marks, one diagnostic per maximal run. -/
def exclamationMessages (l : List Char) (k : Nat) : List TextlintMessage :=
  (runScan exclClass l).map (fun p =>
    ⟨"lint", "no-exclamation-question-mark", "文末に感嘆符や疑問符を使用しないでください", k, p.1 + 1, 2⟩)

def sentenceMsg (k col len : Nat) : TextlintMessage :=
  ⟨"lint", "sentence-length",
    "文が長すぎます。100文字以内にしてください。現在の文字数: " ++ toString len, k, col, 2⟩

/-- Rule 2 fold: one diagnostic per segment longer than 100 characters, the
column accumulator advancing by segment length plus one per consumed
delimiter. -/
def sentenceLengthGo (k : Nat) : List (List Char) → Nat → List TextlintMessage
  | [], _ => []
  | s :: rest, col =>
    (if 100 < s.length then [sentenceMsg k col s.length] else []) ++
      sentenceLengthGo k rest (col + s.length + 1)

def sentenceLengthMessages (l : List Char) (k : Nat) : List TextlintMessage :=
  sentenceLengthGo k (jsSplit sentenceDelim l) 1

def phraseOccurrenceMessages (pat ruleId msg : String) (sev : Nat) (l : List Char) (k : Nat) :
    List TextlintMessage :=
  (findOccurrences pat.toList l 0).map (fun i => ⟨"lint", ruleId, msg, k, i + 1, sev⟩)

/-- Rule 3: redundant expressions, each with its suggested replacement. -/
def redundantMessages (l : List Char) (k : Nat) : List TextlintMessage :=
  phraseOccurrenceMessages "まず最初に" "ja-no-redundant-expression"
    "冗長な表現です。「まず」または「最初に」を使用してください" 1 l k ++
  phraseOccurrenceMessages "することができる" "ja-no-redundant-expression"
    "冗長な表現です。「できる」を使用してください" 1 l k ++
  phraseOccurrenceMessages "することが可能" "ja-no-redundant-expression"
    "冗長な表現です。「可能」を使用してください" 1 l k

/-- Rule 4: weak phrases. -/
def weakMessages (l : List Char) (k : Nat) : List TextlintMessage :=
  phraseOccurrenceMessages "かもしれない" "ja-no-weak-phrase"
    "弱い表現を使用しています。より明確な表現を検討してください" 1 l k ++
  phraseOccurrenceMessages "思う" "ja-no-weak-phrase"
    "弱い表現を使用しています。より明確な表現を検討してください" 1 l k ++
  phraseOccurrenceMessages "だろう" "ja-no-weak-phrase"
    "弱い表現を使用しています。より明確な表現を検討してください" 1 l k

/-- Rule 5: doubled particles, all non-overlapping occurrences. -/
def doubledJoshiMessages (l : List Char) (k : Nat) : List TextlintMessage :=
  (doubledJoshiScan l).map (fun p =>
    ⟨"lint", "no-doubled-joshi", "助詞「" ++ String.mk [p.2] ++ "」が連続して使用されています",
      k, p.1 + 1, 1⟩)

/-- Rule 6a: immediately repeated Japanese word of two or more characters. -/
def jpSuccessiveMessages (l : List Char) (k : Nat) : List TextlintMessage :=
  (doubledRunScan jpClass 2 l).map (fun p =>
    ⟨"lint", "ja-no-successive-word", "「" ++ String.mk p.2 ++ "」が連続しています", k, p.1 + 1, 2⟩)

/-- Rule 6b: immediately repeated Latin word of three or more letters. -/
def enSuccessiveMessages (l : List Char) (k : Nat) : List TextlintMessage :=
  (doubledRunScan latinChar 3 l).map (fun p =>
    ⟨"lint", "ja-no-successive-word", "「" ++ String.mk p.2 ++ "」が連続しています", k, p.1 + 1, 2⟩)

/-- Rule 6c: space-separated repeated Latin word. -/
def enSpaceMessages (l : List Char) (k : Nat) : List TextlintMessage :=
  (spaceSepScan l).map (fun p =>
    ⟨"lint", "ja-no-successive-word", "「" ++ String.mk p.2 ++ "」が連続しています（スペース区切り）",
      k, p.1 + 1, 2⟩)

/-- Rule 7: ra-nuki verb forms. -/
def ranukiMessages (l : List Char) (k : Nat) : List TextlintMessage :=
  phraseOccurrenceMessages "食べれる" "ja-no-abusage" "ら抜き言葉を使用しています" 1 l k ++
  phraseOccurrenceMessages "見れる" "ja-no-abusage" "ら抜き言葉を使用しています" 1 l k ++
  phraseOccurrenceMessages "着れる" "ja-no-abusage" "ら抜き言葉を使用しています" 1 l k ++
  phraseOccurrenceMessages "考えれる" "ja-no-abusage" "ら抜き言葉を使用しています" 1 l k

/-- Rule 8: first maximal kanji run of seven or more characters (the
`String.prototype.match` of a non-global pattern stops at the first match, and
`indexOf` of the matched run coincides with its start). -/
def kanjiRunMessages (l : List Char) (k : Nat) : List TextlintMessage :=
  match (runScan kanjiClass l).find? (fun p => decide (7 ≤ p.2)) with
  | some p =>
    [⟨"lint", "max-kanji-continuous-len",
      "連続する漢字が長すぎます（" ++ toString p.2 ++ "文字）。6文字以内にしてください", k, p.1 + 1, 1⟩]
  | none => []

/-- Rule 9: AI-writing patterns (hype words, checkmark list marker, bold-colon
emphasis). -/
def aiPatternMessages (l : List Char) (k : Nat) : List TextlintMessage :=
  phraseOccurrenceMessages "革命的な" "no-ai-hype-expressions"
    "AI生成文書に見られる表現パターンです" 1 l k ++
  phraseOccurrenceMessages "画期的な" "no-ai-hype-expressions"
    "AI生成文書に見られる表現パターンです" 1 l k ++
  phraseOccurrenceMessages "✅" "no-ai-list-formatting"
    "AI生成文書に見られる表現パターンです" 1 l k ++
  (emphasisScan l).map (fun i =>
    ⟨"lint", "no-ai-emphasis-patterns", "AI生成文書に見られる表現パターンです", k, i + 1, 1⟩)

/-- Rule 10: colon usage — a single diagnostic per line containing an ASCII or
full-width colon, positioned after the larger of the two `indexOf` results. -/
def colonMessages (l : List Char) (k : Nat) : List TextlintMessage :=
  if l.contains ':' || l.contains '：' then
    [⟨"lint", "no-ai-colon-continuation", "コロンの使用は避けてください", k,
      (max (jsIndexOf l ':') (jsIndexOf l '：') + 1).toNat, 1⟩]
  else []

/-- All ten rules applied to one line, in source order. -/
def lintLine (l : List Char) (k : Nat) : List TextlintMessage :=
  exclamationMessages l k ++ sentenceLengthMessages l k ++ redundantMessages l k ++
  weakMessages l k ++ doubledJoshiMessages l k ++ jpSuccessiveMessages l k ++
  enSuccessiveMessages l k ++ enSpaceMessages l k ++ ranukiMessages l k ++
  kanjiRunMessages l k ++ aiPatternMessages l k ++ colonMessages l k

/-- The mock engine: split the document on newlines, run every rule on every
line, and derive the counts from the message severities. -/
def generateMockLintResult (text : List Char) : LintResult :=
  let lines := jsSplit (fun c => c == '\n') text
  let messages := (lines.enum.map (fun p => lintLine p.2 (p.1 + 1))).flatten
  ⟨messages, (messages.filter (fun m => m.severity == 2)).length,
    (messages.filter (fun m => m.severity == 1)).length⟩

/-- Boundary characters of the word-span regex `^[^\s、。，．！？!?,.　]+`. -/
def boundaryChar (c : Char) : Bool :=
  jsWhitespaceChar c || c == '、' || c == '。' || c == '，' || c == '．' ||
  c == '！' || c == '？' || c == '!' || c == '?' || c == ',' || c == '.' || c == '　'

def ellipsisMarker : List Char := "...".toList

structure ErrorContext where
  before : List Char
  error : List Char
  after : List Char
deriving Repr, DecidableEq

/-- Body of `getErrorContext` for a resolved line: the error word from
`errorStart` (length one if the first character is a boundary character or the
start is past the end), up to `contextLength` characters of context on each
side, ellipsis markers when the context is truncated.  `substring` is modelled
as `(take hi).drop lo`, which agrees with the JavaScript clamping behaviour on
every call site. -/
def contextOnLine (lineText : List Char) (errorStart contextLength : Nat) : ErrorContext :=
  let restOfLine := lineText.drop errorStart
  let run := restOfLine.takeWhile (fun c => !boundaryChar c)
  let errorLength := if run.isEmpty then 1 else run.length
  let errorEnd := errorStart + errorLength
  let beforeStart := errorStart - contextLength
  let before := (if 0 < beforeStart then ellipsisMarker else []) ++ (lineText.take errorStart).drop beforeStart
  let error := (lineText.take errorEnd).drop errorStart
  let afterEnd := min lineText.length (errorEnd + contextLength)
  let after := (lineText.take afterEnd).drop errorEnd ++ (if afterEnd < lineText.length then ellipsisMarker else [])
  ⟨before, error, after⟩

/-- `getErrorContext` of the results panel: out-of-range lines degrade to an
empty context, otherwise the context is extracted around
`max 0 (column - 1)` on line `line`. -/
def getErrorContext (text : List Char) (line column : Int) (contextLength : Nat) : ErrorContext :=
  let lines := jsSplit (fun c => c == '\n') text
  if line < 1 ∨ (lines.length : Int) < line then ⟨[], [], []⟩
  else contextOnLine (lines.getD (line - 1).toNat []) (max 0 (column - 1)).toNat contextLength

/-- The word span the resolver determines at `start`: the maximal run of
non-boundary characters, or a single character when the first character is a
boundary character (empty only past the end of the line). -/
def resolvedSpan (lineText : List Char) (start : Nat) : List Char :=
  let rest := lineText.drop start
  let run := rest.takeWhile (fun c => !boundaryChar c)
  if run.isEmpty then rest.take 1 else run

/-- Removes a leading ellipsis marker. -/
def stripLeadingEllipsis (s : List Char) : List Char :=
  if ellipsisMarker.isPrefixOf s then s.drop 3 else s

/-- Removes a trailing ellipsis marker. -/
def stripTrailingEllipsis (s : List Char) : List Char :=
  if ellipsisMarker.isSuffixOf s then s.take (s.length - 3) else s

/-- `s` occurs contiguously inside `t`. -/
def Subsegment (s t : List Char) : Prop := ∃ u v, t = u ++ s ++ v

/-- The later of the first occurrences of the two colon characters (the larger
first-occurrence index when both are present). -/
def laterColonIdx (l : List Char) : Option Nat :=
  match firstIdx l ':', firstIdx l '：' with
  | some i, some j => some (max i j)
  | some i, none => some i
  | none, some j => some j
  | none, none => none

/-- Rule-panel entry consumed by the diagnostic filter. -/
structure LintRule where
  id : String
  name : String
  enabled : Bool
  category : String
deriving Repr, DecidableEq

inductive FilterType
  | all
  | error
  | warning
deriving Repr, DecidableEq

/-- The `filteredMessages` memo of the results panel: first drop diagnostics of
disabled rules (unknown rule ids pass through), then apply the severity
filter. -/
def filteredMessages (messages : List TextlintMessage) (rules : List LintRule)
    (filter : FilterType) : List TextlintMessage :=
  let ruleFiltered := messages.filter (fun msg =>
    match rules.find? (fun r => r.id == msg.ruleId) with
    | some rule => rule.enabled
    | none => true)
  match filter with
  | FilterType.error => ruleFiltered.filter (fun m => m.severity == 2)
  | FilterType.warning => ruleFiltered.filter (fun m => m.severity == 1)
  | FilterType.all => ruleFiltered

/-- A document edit: the time it occurs and the full text after it. -/
structure EditEvent where
  time : Nat
  text : List Char
deriving Repr, DecidableEq

/-- A text is blank when `text.trim()` is empty. -/
def isBlankText (s : List Char) : Bool := s.all jsWhitespaceChar

/-- Discrete-event model of the debounced lint effect: every edit first clears
the timeout of the previous edit (the effect cleanup), then — unless the text
is blank, which short-circuits — schedules an engine invocation `delay`
milliseconds later.  The pending invocation of an edit therefore fires exactly
when no further edit arrives strictly before its deadline.  Edits are given in
strictly increasing time order. -/
def debounceInvocations (delay : Nat) : List EditEvent → List (Nat × List Char)
  | [] => []
  | [e] => if isBlankText e.text then [] else [(e.time + delay, e.text)]
  | e :: e2 :: rest =>
    (if isBlankText e.text || decide (e2.time < e.time + delay) then []
     else [(e.time + delay, e.text)]) ++ debounceInvocations delay (e2 :: rest)

/-! Membership shapes of the per-rule message lists. -/

theorem mem_phraseOccurrenceMessages {pat rid msg : String} {sev : Nat} {l : List Char} {k : Nat}
    {m : TextlintMessage} (hm : m ∈ phraseOccurrenceMessages pat rid msg sev l k) :
    m.ruleId = rid ∧ m.severity = sev := by
  simp only [phraseOccurrenceMessages, List.mem_map] at hm
  obtain ⟨i, -, rfl⟩ := hm
  exact ⟨rfl, rfl⟩

theorem mem_exclamationMessages {l : List Char} {k : Nat} {m : TextlintMessage}
    (hm : m ∈ exclamationMessages l k) :
    m.ruleId = "no-exclamation-question-mark" ∧ m.severity = 2 := by
  simp only [exclamationMessages, List.mem_map] at hm
  obtain ⟨p, -, rfl⟩ := hm
  exact ⟨rfl, rfl⟩

theorem mem_sentenceLengthGo {k : Nat} {m : TextlintMessage} {segs : List (List Char)} {col : Nat}
    (hm : m ∈ sentenceLengthGo k segs col) :
    m.ruleId = "sentence-length" ∧ m.severity = 2 := by
  induction segs generalizing col with
  | nil => simp [sentenceLengthGo] at hm
  | cons s rest ih =>
    simp only [sentenceLengthGo, List.mem_append] at hm
    rcases hm with hm | hm
    · split at hm
      · simp only [List.mem_singleton] at hm
        subst hm
        exact ⟨rfl, rfl⟩
      · simp at hm
    · exact ih hm

theorem mem_sentenceLengthMessages {l : List Char} {k : Nat} {m : TextlintMessage}
    (hm : m ∈ sentenceLengthMessages l k) :
    m.ruleId = "sentence-length" ∧ m.severity = 2 :=
  mem_sentenceLengthGo hm

theorem mem_redundantMessages {l : List Char} {k : Nat} {m : TextlintMessage}
    (hm : m ∈ redundantMessages l k) :
    m.ruleId = "ja-no-redundant-expression" ∧ m.severity = 1 := by
  simp only [redundantMessages, List.mem_append] at hm
  rcases hm with (hm | hm) | hm <;> exact mem_phraseOccurrenceMessages hm

theorem mem_weakMessages {l : List Char} {k : Nat} {m : TextlintMessage}
    (hm : m ∈ weakMessages l k) :
    m.ruleId = "ja-no-weak-phrase" ∧ m.severity = 1 := by
  simp only [weakMessages, List.mem_append] at hm
  rcases hm with (hm | hm) | hm <;> exact mem_phraseOccurrenceMessages hm

theorem mem_doubledJoshiMessages {l : List Char} {k : Nat} {m : TextlintMessage}
    (hm : m ∈ doubledJoshiMessages l k) :
    m.ruleId = "no-doubled-joshi" ∧ m.severity = 1 := by
  simp only [doubledJoshiMessages, List.mem_map] at hm
  obtain ⟨p, -, rfl⟩ := hm
  exact ⟨rfl, rfl⟩

theorem mem_jpSuccessiveMessages {l : List Char} {k : Nat} {m : TextlintMessage}
    (hm : m ∈ jpSuccessiveMessages l k) :
    m.ruleId = "ja-no-successive-word" ∧ m.severity = 2 := by
  simp only [jpSuccessiveMessages, List.mem_map] at hm
  obtain ⟨p, -, rfl⟩ := hm
  exact ⟨rfl, rfl⟩

theorem mem_enSuccessiveMessages {l : List Char} {k : Nat} {m : TextlintMessage}
    (hm : m ∈ enSuccessiveMessages l k) :
    m.ruleId = "ja-no-successive-word" ∧ m.severity = 2 := by
  simp only [enSuccessiveMessages, List.mem_map] at hm
  obtain ⟨p, -, rfl⟩ := hm
  exact ⟨rfl, rfl⟩

theorem mem_enSpaceMessages {l : List Char} {k : Nat} {m : TextlintMessage}
    (hm : m ∈ enSpaceMessages l k) :
    m.ruleId = "ja-no-successive-word" ∧ m.severity = 2 := by
  simp only [enSpaceMessages, List.mem_map] at hm
  obtain ⟨p, -, rfl⟩ := hm
  exact ⟨rfl, rfl⟩

theorem mem_ranukiMessages {l : List Char} {k : Nat} {m : TextlintMessage}
    (hm : m ∈ ranukiMessages l k) :
    m.ruleId = "ja-no-abusage" ∧ m.severity = 1 := by
  simp only [ranukiMessages, List.mem_append] at hm
  rcases hm with ((hm | hm) | hm) | hm <;> exact mem_phraseOccurrenceMessages hm

theorem mem_kanjiRunMessages {l : List Char} {k : Nat} {m : TextlintMessage}
    (hm : m ∈ kanjiRunMessages l k) :
    m.ruleId = "max-kanji-continuous-len" ∧ m.severity = 1 := by
  unfold kanjiRunMessages at hm
  split at hm
  · simp only [List.mem_singleton] at hm
    subst hm
    exact ⟨rfl, rfl⟩
  · simp at hm

theorem mem_aiPatternMessages {l : List Char} {k : Nat} {m : TextlintMessage}
    (hm : m ∈ aiPatternMessages l k) :
    (m.ruleId = "no-ai-hype-expressions" ∨ m.ruleId = "no-ai-list-formatting" ∨
      m.ruleId = "no-ai-emphasis-patterns") ∧ m.severity = 1 := by
  simp only [aiPatternMessages, List.mem_append] at hm
  rcases hm with ((hm | hm) | hm) | hm
  · exact ⟨Or.inl (mem_phraseOccurrenceMessages hm).1, (mem_phraseOccurrenceMessages hm).2⟩
  · exact ⟨Or.inl (mem_phraseOccurrenceMessages hm).1, (mem_phraseOccurrenceMessages hm).2⟩
  · exact ⟨Or.inr (Or.inl (mem_phraseOccurrenceMessages hm).1), (mem_phraseOccurrenceMessages hm).2⟩
  · simp only [List.mem_map] at hm
    obtain ⟨i, -, rfl⟩ := hm
    exact ⟨Or.inr (Or.inr rfl), rfl⟩

theorem mem_colonMessages {l : List Char} {k : Nat} {m : TextlintMessage}
    (hm : m ∈ colonMessages l k) :
    m.ruleId = "no-ai-colon-continuation" ∧ m.severity = 1 := by
  unfold colonMessages at hm
  split at hm
  · simp only [List.mem_singleton] at hm
    subst hm
    exact ⟨rfl, rfl⟩
  · simp at hm

theorem lintLine_severity {l : List Char} {k : Nat} {m : TextlintMessage}
    (hm : m ∈ lintLine l k) : m.severity = 1 ∨ m.severity = 2 := by
  simp only [lintLine, List.mem_append] at hm
  rcases hm with ((((((((((hm | hm) | hm) | hm) | hm) | hm) | hm) | hm) | hm) | hm) | hm) | hm
  · exact Or.inr (mem_exclamationMessages hm).2
  · exact Or.inr (mem_sentenceLengthMessages hm).2
  · exact Or.inl (mem_redundantMessages hm).2
  · exact Or.inl (mem_weakMessages hm).2
  · exact Or.inl (mem_doubledJoshiMessages hm).2
  · exact Or.inr (mem_jpSuccessiveMessages hm).2
  · exact Or.inr (mem_enSuccessiveMessages hm).2
  · exact Or.inr (mem_enSpaceMessages hm).2
  · exact Or.inl (mem_ranukiMessages hm).2
  · exact Or.inl (mem_kanjiRunMessages hm).2
  · exact Or.inl (mem_aiPatternMessages hm).2
  · exact Or.inl (mem_colonMessages hm).2

/-! Filter helpers. -/

theorem filter_ruleId_nil {L : List TextlintMessage} {r : String}
    (h : ∀ m ∈ L, m.ruleId ≠ r) : L.filter (fun m => m.ruleId == r) = [] := by
  rw [List.filter_eq_nil_iff]
  intro m hm
  simp [h m hm]

theorem filter_ruleId_self {L : List TextlintMessage} {r : String}
    (h : ∀ m ∈ L, m.ruleId = r) : L.filter (fun m => m.ruleId == r) = L := by
  rw [List.filter_eq_self]
  intro m hm
  simp [h m hm]

/-- Only the colon rule produces the colon rule id, so filtering a fully
linted line for that id leaves exactly the colon-rule output. -/
theorem lintLine_filter_colon (l : List Char) (k : Nat) :
    (lintLine l k).filter (fun m => m.ruleId == "no-ai-colon-continuation") = colonMessages l k := by
  simp only [lintLine, List.filter_append]
  rw [filter_ruleId_nil (fun m hm => by rw [(mem_exclamationMessages hm).1]; decide),
    filter_ruleId_nil (fun m hm => by rw [(mem_sentenceLengthMessages hm).1]; decide),
    filter_ruleId_nil (fun m hm => by rw [(mem_redundantMessages hm).1]; decide),
    filter_ruleId_nil (fun m hm => by rw [(mem_weakMessages hm).1]; decide),
    filter_ruleId_nil (fun m hm => by rw [(mem_doubledJoshiMessages hm).1]; decide),
    filter_ruleId_nil (fun m hm => by rw [(mem_jpSuccessiveMessages hm).1]; decide),
    filter_ruleId_nil (fun m hm => by rw [(mem_enSuccessiveMessages hm).1]; decide),
    filter_ruleId_nil (fun m hm => by rw [(mem_enSpaceMessages hm).1]; decide),
    filter_ruleId_nil (fun m hm => by rw [(mem_ranukiMessages hm).1]; decide),
    filter_ruleId_nil (fun m hm => by rw [(mem_kanjiRunMessages hm).1]; decide),
    filter_ruleId_nil (fun m hm => by
      rcases (mem_aiPatternMessages hm).1 with h | h | h <;> rw [h] <;> decide),
    filter_ruleId_self (fun m hm => (mem_colonMessages hm).1)]
  simp

/-- Only the sentence-length rule produces the sentence-length rule id. -/
theorem lintLine_filter_sentenceLength (l : List Char) (k : Nat) :
    (lintLine l k).filter (fun m => m.ruleId == "sentence-length") = sentenceLengthMessages l k := by
  simp only [lintLine, List.filter_append]
  rw [filter_ruleId_nil (fun m hm => by rw [(mem_exclamationMessages hm).1]; decide),
    filter_ruleId_self (fun m hm => (mem_sentenceLengthMessages hm).1),
    filter_ruleId_nil (fun m hm => by rw [(mem_redundantMessages hm).1]; decide),
    filter_ruleId_nil (fun m hm => by rw [(mem_weakMessages hm).1]; decide),
    filter_ruleId_nil (fun m hm => by rw [(mem_doubledJoshiMessages hm).1]; decide),
    filter_ruleId_nil (fun m hm => by rw [(mem_jpSuccessiveMessages hm).1]; decide),
    filter_ruleId_nil (fun m hm => by rw [(mem_enSuccessiveMessages hm).1]; decide),
    filter_ruleId_nil (fun m hm => by rw [(mem_enSpaceMessages hm).1]; decide),
    filter_ruleId_nil (fun m hm => by rw [(mem_ranukiMessages hm).1]; decide),
    filter_ruleId_nil (fun m hm => by rw [(mem_kanjiRunMessages hm).1]; decide),
    filter_ruleId_nil (fun m hm => by
      rcases (mem_aiPatternMessages hm).1 with h | h | h <;> rw [h] <;> decide),
    filter_ruleId_nil (fun m hm => by rw [(mem_colonMessages hm).1]; decide)]
  simp

theorem firstIdxGo_eq_none {c : Char} {l : List Char} {i : Nat}
    (h : firstIdxGo c l i = none) : c ∉ l := by
  induction l generalizing i with
  | nil => simp
  | cons x rest ih =>
    simp only [firstIdxGo] at h
    by_cases hx : x == c
    · simp [hx] at h
    · have hrest := ih (i := i + 1) (by simpa [hx] using h)
      simp only [List.mem_cons, not_or]
      refine ⟨fun hc => ?_, hrest⟩
      exact hx (by simp [hc])

/-- Counts partition a message list once every severity is 1 or 2. -/
theorem severity_partition (L : List TextlintMessage)
    (h : ∀ m ∈ L, m.severity = 1 ∨ m.severity = 2) :
    (L.filter (fun m => m.severity == 2)).length + (L.filter (fun m => m.severity == 1)).length =
      L.length := by
  induction L with
  | nil => rfl
  | cons m rest ih =>
    have hrest := ih (fun x hx => h x (List.mem_cons_of_mem m hx))
    rcases h m (List.mem_cons_self m rest) with hs | hs <;>
      simp [List.filter_cons, hs] <;> omega

theorem mem_generateMockLintResult {text : List Char} {m : TextlintMessage}
    (hm : m ∈ (generateMockLintResult text).messages) : ∃ l k, m ∈ lintLine l k := by
  simp only [generateMockLintResult, List.mem_flatten, List.mem_map] at hm
  obtain ⟨sub, ⟨p, -, rfl⟩, hmsub⟩ := hm
  exact ⟨p.2, p.1 + 1, hmsub⟩

/-- If a predicate never holds on a list, splitting on it returns the whole
list as the single segment. -/
theorem jsSplit_eq_single {p : Char → Bool} {l : List Char}
    (h : ∀ c ∈ l, p c = false) : jsSplit p l = [l] := by
  induction l with
  | nil => rfl
  | cons c rest ih =>
    have hc := h c (List.mem_cons_self c rest)
    have hrest := ih (fun x hx => h x (List.mem_cons_of_mem c hx))
    simp [jsSplit, hc, hrest]

/-- A document without newlines is linted as its own single line. -/
theorem generateMockLintResult_single_line {text : List Char}
    (h : ∀ c ∈ text, (c == '\n') = false) :
    (generateMockLintResult text).messages = lintLine text 1 := by
  unfold generateMockLintResult
  rw [jsSplit_eq_single h]
  simp [List.enum]

/--
C1.  Every line containing an ASCII or full-width colon receives exactly one
`no-ai-colon-continuation` diagnostic from the engine's line pass, and its
column is one more than the later (larger) of the two colon characters' first
occurrence indices.
-/
theorem colon_rule_single_diagnostic_at_later_colon (l : List Char) (k : Nat)
    (h : ':' ∈ l ∨ '：' ∈ l) :
    ∃ j, laterColonIdx l = some j ∧
      (lintLine l k).filter (fun m => m.ruleId == "no-ai-colon-continuation") =
        [⟨"lint", "no-ai-colon-continuation", "コロンの使用は避けてください", k, j + 1, 1⟩] := by
  have hguard : (l.contains ':' || l.contains '：') = true := by
    rcases h with h | h
    · simp only [List.contains]
      rw [List.elem_iff.mpr h]
      simp
    · simp only [List.contains]
      rw [List.elem_iff.mpr h]
      simp
  rw [lintLine_filter_colon]
  unfold colonMessages
  rw [if_pos hguard]
  cases h1 : firstIdx l ':' with
  | some i =>
    cases h2 : firstIdx l '：' with
    | some j =>
      refine ⟨max i j, ?_, ?_⟩
      · simp [laterColonIdx, h1, h2]
      · simp only [jsIndexOf, h1, h2]
        rw [← Nat.cast_max]
        have : ((max i j : Nat) : Int) + 1 = ((max i j + 1 : Nat) : Int) := by push_cast; ring
        rw [this, Int.toNat_natCast]
    | none =>
      refine ⟨i, ?_, ?_⟩
      · simp [laterColonIdx, h1, h2]
      · simp only [jsIndexOf, h1, h2]
        have hle : (-1 : Int) ≤ (i : Int) := by omega
        rw [max_eq_left hle]
        have : ((i : Int) + 1).toNat = i + 1 := by omega
        rw [this]
  | none =>
    cases h2 : firstIdx l '：' with
    | some j =>
      refine ⟨j, ?_, ?_⟩
      · simp [laterColonIdx, h1, h2]
      · simp only [jsIndexOf, h1, h2]
        have hle : (-1 : Int) ≤ (j : Int) := by omega
        rw [max_eq_right hle]
        have : ((j : Int) + 1).toNat = j + 1 := by omega
        rw [this]
    | none =>
      exact absurd h (by
        push_neg
        exact ⟨firstIdxGo_eq_none h1, firstIdxGo_eq_none h2⟩)

/--
Witness for C1 at the spec's Scenario E shape: `':'` first occurs at index 5
and `'：'` first occurs at index 10, and the single colon diagnostic of the
line sits at column 11.
-/
theorem colon_rule_single_diagnostic_witness :
    (lintLine ("abcde:defg：hi".toList) 3).filter
        (fun m => m.ruleId == "no-ai-colon-continuation") =
      [⟨"lint", "no-ai-colon-continuation", "コロンの使用は避けてください", 3, 11, 1⟩] := by
  obtain ⟨j, hj, hf⟩ :=
    colon_rule_single_diagnostic_at_later_colon ("abcde:defg：hi".toList) 3 (Or.inl (by decide))
  have h10 : laterColonIdx ("abcde:defg：hi".toList) = some 10 := by decide
  rw [h10] at hj
  cases hj
  exact hf

/--
C2 counterexample.  On the input `"彼は彼は行った"` the engine does not return
exactly one diagnostic: the doubled-particle rule fires, but the Japanese
successive-word rule also matches the repeated `彼は`, so two diagnostics are
returned.
-/
theorem doubled_joshi_input_two_diagnostics :
    (generateMockLintResult ("彼は彼は行った".toList)).messages.length = 2 ∧
      ¬(generateMockLintResult ("彼は彼は行った".toList)).messages.length = 1 := by
  constructor <;> decide

/--
C2 amended.  On `"彼は彼は行った"` the engine returns exactly two diagnostics:
one `no-doubled-joshi` warning whose message references the particle `は`
(line 1, column 2), and one `ja-no-successive-word` error for the repeated
`彼は` (line 1, column 1); in particular exactly one diagnostic carries the
`no-doubled-joshi` rule id.
-/
theorem doubled_joshi_input_amended :
    (generateMockLintResult ("彼は彼は行った".toList)).messages =
      [⟨"lint", "no-doubled-joshi", "助詞「は」が連続して使用されています", 1, 2, 1⟩,
       ⟨"lint", "ja-no-successive-word", "「彼は」が連続しています", 1, 1, 2⟩] ∧
    ((generateMockLintResult ("彼は彼は行った".toList)).messages.filter
        (fun m => m.ruleId == "no-doubled-joshi")).length = 1 ∧
    'は' ∈ ("助詞「は」が連続して使用されています".toList) := by
  refine ⟨by decide, by decide, by decide⟩

/--
C4.  For every input text the result counts are derived from the messages:
`errorCount` is the number of severity-2 diagnostics, `warningCount` the number
of severity-1 diagnostics, every emitted diagnostic has severity 1 or 2, and
the two counts sum to the number of messages.
-/
theorem counts_partition_messages (text : List Char) :
    (generateMockLintResult text).errorCount + (generateMockLintResult text).warningCount =
      (generateMockLintResult text).messages.length ∧
    (generateMockLintResult text).errorCount =
      ((generateMockLintResult text).messages.filter (fun m => m.severity == 2)).length ∧
    (generateMockLintResult text).warningCount =
      ((generateMockLintResult text).messages.filter (fun m => m.severity == 1)).length ∧
    (generateMockLintResult text).messages.all
      (fun m => m.severity == 1 || m.severity == 2) = true := by
  have hsev : ∀ m ∈ (generateMockLintResult text).messages, m.severity = 1 ∨ m.severity = 2 := by
    intro m hm
    obtain ⟨l, k, hlk⟩ := mem_generateMockLintResult hm
    exact lintLine_severity hlk
  refine ⟨?_, rfl, rfl, ?_⟩
  · exact severity_partition _ hsev
  · rw [List.all_eq_true]
    intro m hm
    rcases hsev m hm with hs | hs <;> simp [hs]

/--
C10.  Linting the empty string through the engine itself (no pipeline
short-circuit) produces no messages and zero counts: no rule fires on the
single empty line.
-/
theorem empty_text_empty_result : generateMockLintResult [] = ⟨[], 0, 0⟩ := by decide

/--
C6.  With every rule enabled and the severity filter set to `all`, the
diagnostic filter returns the original message list unchanged.
-/
theorem filter_all_enabled_identity (messages : List TextlintMessage) (rules : List LintRule)
    (h : ∀ r ∈ rules, r.enabled = true) :
    filteredMessages messages rules FilterType.all = messages := by
  unfold filteredMessages
  refine List.filter_eq_self.mpr ?_
  intro m hm
  cases hf : rules.find? (fun r => r.id == m.ruleId) with
  | some rule => simpa [hf] using h rule (List.mem_of_find?_eq_some hf)
  | none => simp [hf]

/-- Witness for C6 on a concrete list with two diagnostics and a fully enabled
rule panel. -/
theorem filter_all_enabled_identity_witness :
    filteredMessages
      [⟨"lint", "no-doubled-joshi", "a", 1, 2, 1⟩, ⟨"lint", "sentence-length", "b", 1, 1, 2⟩]
      [⟨"no-doubled-joshi", "二重助詞", true, "technical"⟩,
       ⟨"no-ai-colon-continuation", "コロンの使用", true, "ai"⟩]
      FilterType.all =
      [⟨"lint", "no-doubled-joshi", "a", 1, 2, 1⟩, ⟨"lint", "sentence-length", "b", 1, 1, 2⟩] :=
  filter_all_enabled_identity _ _ (by decide)

/--
C7.  For any line outside `[1, lineCount]` the context extractor degrades to
the empty snippet: `before`, `error` and `after` are all empty, and no failure
is possible (the function is total).
-/
theorem out_of_range_line_empty_context (text : List Char) (line column : Int)
    (contextLength : Nat)
    (h : line < 1 ∨ ((jsSplit (fun c => c == '\n') text).length : Int) < line) :
    getErrorContext text line column contextLength = ⟨[], [], []⟩ := by
  unfold getErrorContext
  rw [if_pos h]

/-- Witness for C7: line 0 of a three-character document. -/
theorem out_of_range_line_empty_context_witness :
    getErrorContext ("abc".toList) 0 1 20 = ⟨[], [], []⟩ :=
  out_of_range_line_empty_context _ 0 1 20 (Or.inl (by decide))

/--
C9.  Edits at `t`, `t+50` and `t+100` under the 300 ms debounce produce
exactly one engine invocation, carrying the text as of `t+100`: each earlier
edit's pending invocation is cancelled by the next edit arriving within the
delay.
-/
theorem debounce_coalesces_rapid_edits (t : Nat) (s0 s1 s2 : List Char)
    (h : isBlankText s2 = false) :
    debounceInvocations 300 [⟨t, s0⟩, ⟨t + 50, s1⟩, ⟨t + 100, s2⟩] =
      [(t + 100 + 300, s2)] := by
  have h1 : t + 50 < t + 300 := by omega
  have h2 : t + 100 < t + 50 + 300 := by omega
  simp [debounceInvocations, h, h1, h2]

/-- Witness for C9 at `t = 0` with three concrete non-blank texts. -/
theorem debounce_coalesces_rapid_edits_witness :
    debounceInvocations 300 [⟨0, "x".toList⟩, ⟨50, "xy".toList⟩, ⟨100, "xyz".toList⟩] =
      [(400, "xyz".toList)] :=
  debounce_coalesces_rapid_edits 0 ("x".toList) ("xy".toList) ("xyz".toList) (by decide)

/-- Closed form of the sentence-length fold: one message for exactly the
over-length segments, at a column equal to the accumulator plus the lengths of
the preceding segments plus one per consumed delimiter. -/
theorem sentenceLengthGo_closed (k : Nat) (segs : List (List Char)) (col : Nat) :
    sentenceLengthGo k segs col =
      ((List.range segs.length).filter
          (fun i => decide (100 < (segs.getD i []).length))).map
        (fun i => sentenceMsg k (col + ((segs.take i).map List.length).sum + i)
          (segs.getD i []).length) := by
  induction segs generalizing col with
  | nil => simp [sentenceLengthGo]
  | cons s rest ih =>
    simp only [sentenceLengthGo]
    rw [ih (col + s.length + 1), List.length_cons, List.range_succ_eq_map, List.filter_cons]
    simp only [List.getD_cons_zero, List.getD_cons_succ, List.filter_map, List.map_map,
      Function.comp_def, Nat.succ_eq_add_one]
    by_cases hs : 100 < s.length
    · rw [if_pos hs, if_pos (by simpa using hs), List.singleton_append, List.map_cons]
      congr 1
      rw [List.map_map]
      refine List.map_congr_left ?_
      intro a ha
      simp only [Function.comp_apply, Nat.succ_eq_add_one, List.take_succ_cons, List.map_cons,
        List.sum_cons, List.getD_cons_succ, sentenceMsg, TextlintMessage.mk.injEq, true_and,
        and_true]
      omega
    · rw [if_neg hs, if_neg (by simpa using hs), List.nil_append, List.map_map]
      refine List.map_congr_left ?_
      intro a ha
      simp only [Function.comp_apply, Nat.succ_eq_add_one, List.take_succ_cons, List.map_cons,
        List.sum_cons, List.getD_cons_succ, sentenceMsg, TextlintMessage.mk.injEq, true_and,
        and_true]
      omega

/--
C3.  The sentence-length rule splits each line on the two sentence delimiters
and emits one severity-2 diagnostic per segment longer than 100 characters,
whose column is the running character offset of the segment start (previous
segment lengths plus one per consumed delimiter, 1-based); in particular a
single line of 101 non-delimiter characters yields exactly one sentence-length
diagnostic, at column 1, whose message reports length 101.
-/
theorem sentence_length_rule_per_segment :
    (∀ (l : List Char) (k : Nat),
      sentenceLengthMessages l k =
        ((List.range (jsSplit sentenceDelim l).length).filter
            (fun i => decide (100 < ((jsSplit sentenceDelim l).getD i []).length))).map
          (fun i => sentenceMsg k
            ((((jsSplit sentenceDelim l).take i).map List.length).sum + i + 1)
            (((jsSplit sentenceDelim l).getD i []).length))) ∧
    (∀ l : List Char, l.length = 101 →
      (∀ c ∈ l, sentenceDelim c = false ∧ (c == '\n') = false) →
      (generateMockLintResult l).messages.filter (fun m => m.ruleId == "sentence-length") =
        [sentenceMsg 1 1 101]) := by
  constructor
  · intro l k
    unfold sentenceLengthMessages
    rw [sentenceLengthGo_closed]
    refine List.map_congr_left ?_
    intro i _
    have harith : 1 + (((jsSplit sentenceDelim l).take i).map List.length).sum + i =
        (((jsSplit sentenceDelim l).take i).map List.length).sum + i + 1 := by omega
    rw [harith]
  · intro l hlen hc
    rw [generateMockLintResult_single_line (fun c hcm => (hc c hcm).2),
      lintLine_filter_sentenceLength]
    unfold sentenceLengthMessages
    rw [jsSplit_eq_single (fun c hcm => (hc c hcm).1)]
    simp [sentenceLengthGo, hlen]

/-- Witness for C3: a single line of 101 plain letters produces exactly one
sentence-length diagnostic, at column 1, reporting length 101. -/
theorem sentence_length_rule_witness :
    (List.replicate 101 'a').length = 101 ∧
    (generateMockLintResult (List.replicate 101 'a')).messages.filter
        (fun m => m.ruleId == "sentence-length") = [sentenceMsg 1 1 101] :=
  ⟨by decide,
    sentence_length_rule_per_segment.2 (List.replicate 101 'a') (by decide) (by decide)⟩

theorem take_takeWhile_length (p : Char → Bool) (l : List Char) :
    l.take (l.takeWhile p).length = l.takeWhile p := by
  induction l with
  | nil => simp
  | cons c rest ih =>
    by_cases hc : p c <;> simp [List.takeWhile_cons, hc, ih]

/-- The extracted `errorText` is the span the word resolver determines. -/
theorem contextOnLine_error (lineText : List Char) (start ctxLen : Nat) :
    (contextOnLine lineText start ctxLen).error = resolvedSpan lineText start := by
  simp only [contextOnLine, resolvedSpan]
  rw [List.drop_take, Nat.add_sub_cancel_left]
  by_cases hrun : ((lineText.drop start).takeWhile (fun c => !boundaryChar c)).isEmpty
  · rw [if_pos hrun, if_pos hrun]
  · rw [if_neg hrun, if_neg hrun, take_takeWhile_length]

theorem stripLeadingEllipsis_marker (x : List Char) :
    stripLeadingEllipsis (ellipsisMarker ++ x) = x := by
  unfold stripLeadingEllipsis
  rw [if_pos (( List.isPrefixOf_iff_prefix).mpr (List.prefix_append _ _))]
  have h3 : ellipsisMarker.length = 3 := rfl
  rw [← h3, List.drop_left]

theorem stripTrailingEllipsis_marker (y : List Char) :
    stripTrailingEllipsis (y ++ ellipsisMarker) = y := by
  unfold stripTrailingEllipsis
  rw [if_pos (( List.isSuffixOf_iff_suffix).mpr (List.suffix_append _ _))]
  have h3 : ellipsisMarker.length = 3 := rfl
  rw [List.length_append, h3, Nat.add_sub_cancel]
  exact List.take_left _ _

/-- Three adjacent slices of `l` starting at `a ≤ start` form a contiguous
subsegment of `l`. -/
theorem glue_subsegment (l : List Char) (a start eLen d : Nat) (ha : a ≤ start) :
    Subsegment ((l.drop a).take (start - a) ++ ((l.drop start).take eLen ++
      (l.drop (start + eLen)).take d)) l := by
  have hm1 : l.drop start = (l.drop a).drop (start - a) := by
    rw [List.drop_drop]
    congr 1
    omega
  have hm2 : l.drop (start + eLen) = (l.drop a).drop (start - a + eLen) := by
    rw [List.drop_drop]
    congr 1
    omega
  rw [hm1, hm2, ← List.append_assoc, ← List.take_add, ← List.take_add]
  refine ⟨l.take a, (l.drop a).drop (start - a + eLen + d), ?_⟩
  rw [List.append_assoc, List.take_append_drop, List.take_append_drop]

/-- After stripping the ellipsis markers, the three snippet parts are adjacent
slices of the line, hence reconstruct a contiguous subsegment of it. -/
theorem reconstruct_general (l : List Char) (start eLen ctxLen : Nat) :
    Subsegment
      (stripLeadingEllipsis ((if 0 < start - ctxLen then ellipsisMarker else []) ++
          (l.take start).drop (start - ctxLen)) ++
        ((l.take (start + eLen)).drop start ++
          stripTrailingEllipsis ((l.take (min l.length (start + eLen + ctxLen))).drop (start + eLen) ++
            (if min l.length (start + eLen + ctxLen) < l.length then ellipsisMarker else []))))
      l := by
  have hB : (l.take (start + eLen)).drop start = (l.drop start).take eLen := by
    rw [List.drop_take, Nat.add_sub_cancel_left]
  have hA : ∃ a, a ≤ start ∧
      stripLeadingEllipsis ((if 0 < start - ctxLen then ellipsisMarker else []) ++
        (l.take start).drop (start - ctxLen)) = (l.drop a).take (start - a) := by
    by_cases hb : 0 < start - ctxLen
    · rw [if_pos hb, stripLeadingEllipsis_marker, List.drop_take]
      exact ⟨start - ctxLen, by omega, rfl⟩
    · rw [if_neg hb, List.nil_append]
      have hb0 : start - ctxLen = 0 := by omega
      rw [hb0]
      unfold stripLeadingEllipsis
      by_cases hpre : ellipsisMarker.isPrefixOf ((l.take start).drop 0) = true
      · rw [if_pos hpre]
        have hlen : 3 ≤ start := by
          have hle := (( List.isPrefixOf_iff_prefix).mp hpre).length_le
          have h3 : ellipsisMarker.length = 3 := rfl
          rw [h3, List.length_drop, List.length_take] at hle
          omega
        refine ⟨3, hlen, ?_⟩
        rw [List.drop_zero, List.drop_take]
      · rw [if_neg hpre]
        refine ⟨0, Nat.zero_le _, ?_⟩
        simp
  have hC : ∃ d,
      stripTrailingEllipsis ((l.take (min l.length (start + eLen + ctxLen))).drop (start + eLen) ++
        (if min l.length (start + eLen + ctxLen) < l.length then ellipsisMarker else [])) =
        (l.drop (start + eLen)).take d := by
    by_cases hEnd : min l.length (start + eLen + ctxLen) < l.length
    · rw [if_pos hEnd, stripTrailingEllipsis_marker, List.drop_take]
      exact ⟨_, rfl⟩
    · rw [if_neg hEnd, List.append_nil]
      unfold stripTrailingEllipsis
      by_cases hsuf : ellipsisMarker.isSuffixOf
          ((l.take (min l.length (start + eLen + ctxLen))).drop (start + eLen)) = true
      · rw [if_pos hsuf, List.drop_take, List.take_take]
        exact ⟨_, rfl⟩
      · rw [if_neg hsuf, List.drop_take]
        exact ⟨_, rfl⟩
  obtain ⟨a, ha, hAeq⟩ := hA
  obtain ⟨d, hCeq⟩ := hC
  rw [hAeq, hB, hCeq]
  exact glue_subsegment l a start eLen d ha

theorem contextOnLine_reconstruct (lineText : List Char) (start ctxLen : Nat) :
    Subsegment
      (stripLeadingEllipsis (contextOnLine lineText start ctxLen).before ++
        ((contextOnLine lineText start ctxLen).error ++
          stripTrailingEllipsis (contextOnLine lineText start ctxLen).after))
      lineText := by
  simp only [contextOnLine]
  exact reconstruct_general lineText start _ ctxLen

/--
C5.  For any text, any line within `[1, lineCount]` and any column, stripping
the ellipsis markers from the extracted context parts makes
`before ++ errorText ++ after` a contiguous subsegment of the referenced line,
and `errorText` is exactly the span the word resolver determines.
-/
theorem context_reconstructs_line_subsegment (text : List Char) (line column : Int)
    (h1 : 1 ≤ line) (h2 : line ≤ ((jsSplit (fun c => c == '\n') text).length : Int)) :
    Subsegment
      (stripLeadingEllipsis (getErrorContext text line column 20).before ++
        ((getErrorContext text line column 20).error ++
          stripTrailingEllipsis (getErrorContext text line column 20).after))
      ((jsSplit (fun c => c == '\n') text).getD (line - 1).toNat []) ∧
    (getErrorContext text line column 20).error =
      resolvedSpan ((jsSplit (fun c => c == '\n') text).getD (line - 1).toNat [])
        (max 0 (column - 1)).toNat := by
  have hcond : ¬(line < 1 ∨ ((jsSplit (fun c => c == '\n') text).length : Int) < line) := by
    push_neg
    exact ⟨h1, h2⟩
  unfold getErrorContext
  rw [if_neg hcond]
  exact ⟨contextOnLine_reconstruct _ _ _, contextOnLine_error _ _ _⟩

/-- Witness for C5: line 1, column 2 of `"hello world"`. -/
theorem context_reconstructs_line_subsegment_witness :
    Subsegment
      (stripLeadingEllipsis (getErrorContext ("hello world".toList) 1 2 20).before ++
        ((getErrorContext ("hello world".toList) 1 2 20).error ++
          stripTrailingEllipsis (getErrorContext ("hello world".toList) 1 2 20).after))
      ((jsSplit (fun c => c == '\n') ("hello world".toList)).getD ((1 : Int) - 1).toNat []) ∧
    (getErrorContext ("hello world".toList) 1 2 20).error =
      resolvedSpan
        ((jsSplit (fun c => c == '\n') ("hello world".toList)).getD ((1 : Int) - 1).toNat [])
        (max 0 ((2 : Int) - 1)).toNat :=
  context_reconstructs_line_subsegment ("hello world".toList) 1 2 (by decide) (by decide)

theorem resolvedSpan_length_pos (L : List Char) (start : Nat) (h : start < L.length) :
    1 ≤ (resolvedSpan L start).length := by
  unfold resolvedSpan
  have hrest : 1 ≤ (L.drop start).length := by
    rw [List.length_drop]
    omega
  by_cases hrun : ((L.drop start).takeWhile (fun c => !boundaryChar c)).isEmpty
  · rw [if_pos hrun, List.length_take]
    omega
  · rw [if_neg hrun]
    have : (L.drop start).takeWhile (fun c => !boundaryChar c) ≠ [] := by
      simpa [List.isEmpty_iff] using hrun
    exact Nat.one_le_iff_ne_zero.mpr (by simpa [List.length_eq_zero] using this)

theorem resolvedSpan_boundary_head (L : List Char) (start : Nat) (c : Char)
    (hhead : (L.drop start).head? = some c) (hb : boundaryChar c = true) :
    (resolvedSpan L start).length = 1 := by
  unfold resolvedSpan
  cases hrest : L.drop start with
  | nil => rw [hrest] at hhead; simp at hhead
  | cons c' t =>
    rw [hrest] at hhead
    simp only [List.head?_cons, Option.some_inj] at hhead
    subst hhead
    simp [List.takeWhile_cons, hb]

theorem resolvedSpan_past_end (L : List Char) (start : Nat) (h : L.length ≤ start) :
    resolvedSpan L start = [] := by
  unfold resolvedSpan
  have hnil : L.drop start = [] := by
    rw [← List.length_eq_zero, List.length_drop]
    omega
  rw [hnil]
  simp

/--
C8 counterexample.  The claim admits the flag position `column = lineLength + 1`
as legal and asserts a non-empty extracted highlight there; but on the
one-character document `"a"` at line 1, column 2 (which satisfies every side
condition of the claim) the extracted `errorText` is empty.
-/
theorem span_nonempty_counterexample :
    ((1 : Int) ≤ 1) ∧
    ((1 : Int) ≤ ((jsSplit (fun c => c == '\n') ("a".toList)).length : Int)) ∧
    ((1 : Int) ≤ 2) ∧
    ((2 : Int) ≤ (((jsSplit (fun c => c == '\n') ("a".toList)).getD 0 []).length : Int) + 1) ∧
    (getErrorContext ("a".toList) 1 2 20).error = [] ∧
    ¬(1 ≤ (getErrorContext ("a".toList) 1 2 20).error.length) := by
  refine ⟨by decide, by decide, by decide, by decide, by decide, by decide⟩

/--
C8 amended.  For any text, any line in `[1, lineCount]`: for columns in
`[1, lineLength]` the extracted `errorText` is non-empty (length at least 1),
and has length exactly 1 when the character at the resolved offset is a
boundary character; at the flag position `column = lineLength + 1` the internal
span length is still 1 but the extracted `errorText` is empty (the substring is
clamped at the end of the line).
-/
theorem span_nonempty_amended (text : List Char) (line column : Int)
    (h1 : 1 ≤ line) (h2 : line ≤ ((jsSplit (fun c => c == '\n') text).length : Int)) :
    ((1 ≤ column →
        column ≤ ((((jsSplit (fun c => c == '\n') text).getD (line - 1).toNat []).length : Int)) →
        1 ≤ (getErrorContext text line column 20).error.length) ∧
      (∀ ch : Char,
        (((jsSplit (fun c => c == '\n') text).getD (line - 1).toNat []).drop
            (max 0 (column - 1)).toNat).head? = some ch →
        boundaryChar ch = true →
        (getErrorContext text line column 20).error.length = 1)) ∧
    (column = ((((jsSplit (fun c => c == '\n') text).getD (line - 1).toNat []).length : Int)) + 1 →
      (getErrorContext text line column 20).error = []) := by
  have hcond : ¬(line < 1 ∨ ((jsSplit (fun c => c == '\n') text).length : Int) < line) := by
    push_neg
    exact ⟨h1, h2⟩
  have herr : (getErrorContext text line column 20).error =
      resolvedSpan ((jsSplit (fun c => c == '\n') text).getD (line - 1).toNat [])
        (max 0 (column - 1)).toNat := by
    unfold getErrorContext
    rw [if_neg hcond]
    exact contextOnLine_error _ _ _
  refine ⟨⟨?_, ?_⟩, ?_⟩
  · intro hc1 hc2
    rw [herr]
    apply resolvedSpan_length_pos
    have hmax : max (0 : Int) (column - 1) = column - 1 := max_eq_right (by omega)
    rw [hmax]
    omega
  · intro ch hhead hb
    rw [herr]
    exact resolvedSpan_boundary_head _ _ _ hhead hb
  · intro hcol
    rw [herr]
    apply resolvedSpan_past_end
    have hmax : max (0 : Int) (column - 1) = column - 1 := max_eq_right (by omega)
    rw [hmax]
    omega

/-- Witness for the amended C8 at line 1, column 1 of `"ab"`. -/
theorem span_nonempty_amended_witness :
    1 ≤ (getErrorContext ("ab".toList) 1 1 20).error.length :=
  (span_nonempty_amended ("ab".toList) 1 1 (by decide) (by decide)).1.1 (by decide) (by decide)

end TextlintChecker
